import Mathlib

/-!
Verification of the interactive selection and navigation state machine of the
cherry-picker TUI (models.go, tui.go, git.go).

Conventions of the shallow embedding:
  * Go `int` fields that can go negative in the source (`currentIndex`,
    `rangeStart`, `rangeEnd`) are `Int`; counters that the source only ever
    stores loop indices into (`filteredCommits`, `branchIndex`) are `Nat`.
  * The Go map `selected map[string]bool` (lookup of a missing key yields
    `false`) is a total function `String → Bool`.
  * Calls into the external git binary are modelled by a `GitEnv` record of
    collaborator results; a handler that runs git commands takes a `GitEnv`.
  * Indexing a Go slice out of range crashes the program.  The embedding
    guards such reads with bounds checks; all theorems below are stated on
    states where the source would not crash (cursor and range bounds
    non-negative), which is every state the program actually reaches.
  * `time.Time` metadata (`Date`) is omitted: no embedded operation reads it.
-/

/-- Commit mirrors the Commit struct of models.go (Date omitted, see header). -/
structure Commit where
  SHA : String
  Message : String
  Full : String
  Author : String
  IsMerge : Bool
  ParentCount : Nat
  FilesChanged : List String
  Insertions : Nat
  Deletions : Nat
  AlreadyApplied : Bool
deriving DecidableEq

/-- ConflictFile mirrors the ConflictFile struct of models.go. -/
structure ConflictFile where
  Path : String
  Status : String
  Description : String
  HasConflicts : Bool
deriving DecidableEq

/-- GitSettings holds the two branch fields of the configuration that the
embedded operations read or write (config.go, Git section). -/
structure GitSettings where
  TargetBranch : String
  SourceBranch : String
deriving DecidableEq

/-- Config wraps the git section of the configuration file. -/
structure Config where
  Git : GitSettings
deriving DecidableEq

/-- CherryPicker mirrors the mutable application state struct of models.go,
restricted to the fields the verified operations touch. -/
structure CherryPicker where
  commits : List Commit
  selected : String → Bool
  currentIndex : Int
  quitting : Bool
  reverse : Bool
  config : Config
  rangeSelection : Bool
  rangeStart : Int
  rangeEnd : Int
  conflictMode : Bool
  conflictCommit : String
  conflictFiles : List ConflictFile
  conflictResolved : Bool
  searchMode : Bool
  searchQuery : String
  filteredCommits : List Nat
  previewMode : Bool
  previewCommit : Option Commit
  previewDiff : String
  previewStats : String
  branchMode : Bool
  branchSwitchType : String
  availableBranches : List String
  branchIndex : Nat

/-- GitEnv models one round of results from the external git collaborator:
diff and stat fetches for the preview pane, the conflict scan of
`hasConflicts`, the exit status of `git cherry-pick --continue`, the parsed
output of `getConflictedFiles` (`none` = the command itself failed), the
per-commit success of `git cherry-pick sha`, and the commit list a reload
would fetch. -/
structure GitEnv where
  getCommitDiff : String → Except String String
  getCommitStats : String → Except String String
  hasConflicts : Bool
  continueRunOk : Bool
  getConflictedFiles : Option (List ConflictFile)
  pickOk : String → Bool
  logCommits : Except String (List Commit)

/-- listStarts sub s decides whether sub is an initial segment of s
(character model of the test used by Go strings.Contains). -/
def listStarts : List Char → List Char → Bool
  | [], _ => true
  | _ :: _, [] => false
  | a :: as, b :: bs => a == b && listStarts as bs

/-- listHasSub s sub decides whether sub occurs contiguously in s. -/
def listHasSub : List Char → List Char → Bool
  | [], sub => listStarts sub []
  | c :: t, sub => listStarts sub (c :: t) || listHasSub t sub

/-- strContains s sub is Go strings.Contains(s, sub). -/
def strContains (s sub : String) : Bool :=
  listHasSub s.data sub.data

/-- strToLower is Go strings.ToLower, restricted to the character-wise
lowering Lean provides (faithful on ASCII input). -/
def strToLower (s : String) : String :=
  String.mk (s.data.map Char.toLower)

/-- commitMatchesSearch is models.go commitMatchesSearch: case-insensitive
substring test of the query against message, full line, SHA, author, and
every changed file path. -/
def commitMatchesSearch (c : Commit) (query : String) : Bool :=
  strContains (strToLower c.Message) query ||
  strContains (strToLower c.Full) query ||
  strContains (strToLower c.SHA) query ||
  strContains (strToLower c.Author) query ||
  c.FilesChanged.any (fun f => strContains (strToLower f) query)

/-- getMaxIndex is models.go getMaxIndex: last valid navigation index, -1 on
an empty view. -/
def getMaxIndex (s : CherryPicker) : Int :=
  if s.searchMode then (s.filteredCommits.length : Int) - 1
  else (s.commits.length : Int) - 1

/-- getVisibleCommits is models.go getVisibleCommits: the full list unless
search mode is on and the filter is non-empty, in which case the commits at
the filtered indices (skipping any index out of range, as the source does). -/
def getVisibleCommits (s : CherryPicker) : List Commit :=
  if !s.searchMode || s.filteredCommits.length == 0 then s.commits
  else s.filteredCommits.filterMap (fun i => s.commits.get? i)

/-- getCurrentCommit is models.go getCurrentCommit.  The source checks only
the upper bound before indexing; a negative cursor would crash Go, so the
embedding additionally requires non-negativity (all reachable states have a
non-negative cursor). -/
def getCurrentCommit (s : CherryPicker) : Option Commit :=
  if s.searchMode ∧ s.filteredCommits.length ≠ 0 then
    if 0 ≤ s.currentIndex ∧ s.currentIndex < (s.filteredCommits.length : Int) then
      match s.filteredCommits.get? s.currentIndex.toNat with
      | some realIndex => s.commits.get? realIndex
      | none => none
    else none
  else
    if 0 ≤ s.currentIndex ∧ s.currentIndex < (s.commits.length : Int) then
      s.commits.get? s.currentIndex.toNat
    else none

/-- updateSel is the Go map write selected[sha] = b. -/
def updateSel (sel : String → Bool) (sha : String) (b : Bool) : String → Bool :=
  fun x => if x = sha then b else sel x

/-- updateRangeEnd is models.go updateRangeEnd. -/
def updateRangeEnd (s : CherryPicker) : CherryPicker :=
  if s.rangeSelection then { s with rangeEnd := s.currentIndex } else s

/-- loadPreviewData is models.go loadPreviewData; the two fetches are
independent and an error is cached as a placeholder string. -/
def loadPreviewData (env : GitEnv) (c : Commit) (s : CherryPicker) : CherryPicker :=
  { s with
    previewCommit := some c
    previewDiff := match env.getCommitDiff c.SHA with
      | .ok d => d
      | .error e => "Error loading diff: " ++ e
    previewStats := match env.getCommitStats c.SHA with
      | .ok t => t
      | .error e => "Error loading stats: " ++ e }

/-- updatePreview is models.go updatePreview: reload the preview cache when
the cursor has moved to a different commit. -/
def updatePreview (env : GitEnv) (s : CherryPicker) : CherryPicker :=
  if s.previewMode then
    match getCurrentCommit s with
    | some c =>
      if (match s.previewCommit with
          | none => true
          | some pc => pc.SHA != c.SHA) then loadPreviewData env c s else s
    | none => s
  else s

/-- moveDown is the down branch of tui.go Update (keys down, j, n). -/
def moveDown (env : GitEnv) (s : CherryPicker) : CherryPicker :=
  let maxIndex := getMaxIndex s
  if s.currentIndex < maxIndex ∧ 0 ≤ maxIndex then
    updatePreview env (updateRangeEnd { s with currentIndex := s.currentIndex + 1 })
  else s

/-- moveUp is the up branch of tui.go Update (keys up, k). -/
def moveUp (env : GitEnv) (s : CherryPicker) : CherryPicker :=
  if 0 < s.currentIndex then
    updatePreview env (updateRangeEnd { s with currentIndex := s.currentIndex - 1 })
  else s

/-- pageDown is the pagedown branch of tui.go Update: jump 25 ahead, clamped
to the max index. -/
def pageDown (env : GitEnv) (s : CherryPicker) : CherryPicker :=
  let maxIndex := getMaxIndex s
  if 0 ≤ maxIndex then
    let c := s.currentIndex + 25
    updatePreview env (updateRangeEnd
      { s with currentIndex := if maxIndex < c then maxIndex else c })
  else s

/-- pageUp is the pageup branch of tui.go Update: jump 25 back, clamped to 0. -/
def pageUp (env : GitEnv) (s : CherryPicker) : CherryPicker :=
  let c := s.currentIndex - 25
  updatePreview env (updateRangeEnd
    { s with currentIndex := if c < 0 then 0 else c })

/-- MoveOp enumerates the four cursor-move keys of the main view. -/
inductive MoveOp
  | up
  | down
  | pgUp
  | pgDown
deriving DecidableEq

/-- applyMove dispatches one cursor-move key. -/
def applyMove (env : GitEnv) : MoveOp → CherryPicker → CherryPicker
  | .up, s => moveUp env s
  | .down, s => moveDown env s
  | .pgUp, s => pageUp env s
  | .pgDown, s => pageDown env s

/-- applyMoves folds a whole key sequence of cursor moves. -/
def applyMoves (env : GitEnv) (ms : List MoveOp) (s : CherryPicker) : CherryPicker :=
  ms.foldl (fun t m => applyMove env m t) s

/-- viewLength is the length of the view the claims speak about: the filtered
index list when search is active, else the full sequence (getMaxIndex + 1). -/
def viewLength (s : CherryPicker) : Nat :=
  if s.searchMode then s.filteredCommits.length else s.commits.length

/-- cursorInv is the cursor invariant: inside [0, viewLength-1] on a
non-empty view, pinned to 0 on an empty view. -/
def cursorInv (s : CherryPicker) : Prop :=
  (0 < viewLength s → 0 ≤ s.currentIndex ∧ s.currentIndex < (viewLength s : Int)) ∧
  (viewLength s = 0 → s.currentIndex = 0)

instance (s : CherryPicker) : Decidable (cursorInv s) := by
  unfold cursorInv; infer_instance

lemma updateRangeEnd_currentIndex (s : CherryPicker) :
    (updateRangeEnd s).currentIndex = s.currentIndex := by
  unfold updateRangeEnd; split <;> rfl

lemma updateRangeEnd_searchMode (s : CherryPicker) :
    (updateRangeEnd s).searchMode = s.searchMode := by
  unfold updateRangeEnd; split <;> rfl

lemma updateRangeEnd_filteredCommits (s : CherryPicker) :
    (updateRangeEnd s).filteredCommits = s.filteredCommits := by
  unfold updateRangeEnd; split <;> rfl

lemma updateRangeEnd_commits (s : CherryPicker) :
    (updateRangeEnd s).commits = s.commits := by
  unfold updateRangeEnd; split <;> rfl

lemma updateRangeEnd_selected (s : CherryPicker) :
    (updateRangeEnd s).selected = s.selected := by
  unfold updateRangeEnd; split <;> rfl

lemma updatePreview_currentIndex (env : GitEnv) (s : CherryPicker) :
    (updatePreview env s).currentIndex = s.currentIndex := by
  unfold updatePreview loadPreviewData
  split <;> [skip; rfl]
  split <;> [split <;> rfl; rfl]

lemma updatePreview_searchMode (env : GitEnv) (s : CherryPicker) :
    (updatePreview env s).searchMode = s.searchMode := by
  unfold updatePreview loadPreviewData
  split <;> [skip; rfl]
  split <;> [split <;> rfl; rfl]

lemma updatePreview_filteredCommits (env : GitEnv) (s : CherryPicker) :
    (updatePreview env s).filteredCommits = s.filteredCommits := by
  unfold updatePreview loadPreviewData
  split <;> [skip; rfl]
  split <;> [split <;> rfl; rfl]

lemma updatePreview_commits (env : GitEnv) (s : CherryPicker) :
    (updatePreview env s).commits = s.commits := by
  unfold updatePreview loadPreviewData
  split <;> [skip; rfl]
  split <;> [split <;> rfl; rfl]

lemma updatePreview_selected (env : GitEnv) (s : CherryPicker) :
    (updatePreview env s).selected = s.selected := by
  unfold updatePreview loadPreviewData
  split <;> [skip; rfl]
  split <;> [split <;> rfl; rfl]

lemma viewLength_set_currentIndex (s : CherryPicker) (c : Int) :
    viewLength { s with currentIndex := c } = viewLength s := rfl

lemma getMaxIndex_eq_viewLength (s : CherryPicker) :
    getMaxIndex s = (viewLength s : Int) - 1 := by
  unfold getMaxIndex viewLength; split <;> rfl

lemma viewLength_updates (env : GitEnv) (s : CherryPicker) :
    viewLength (updatePreview env (updateRangeEnd s)) = viewLength s := by
  unfold viewLength
  rw [updatePreview_searchMode, updatePreview_filteredCommits,
    updatePreview_commits, updateRangeEnd_searchMode,
    updateRangeEnd_filteredCommits, updateRangeEnd_commits]

lemma currentIndex_updates (env : GitEnv) (s : CherryPicker) :
    (updatePreview env (updateRangeEnd s)).currentIndex = s.currentIndex := by
  rw [updatePreview_currentIndex, updateRangeEnd_currentIndex]


lemma moveUp_currentIndex (env : GitEnv) (s : CherryPicker) :
    (moveUp env s).currentIndex
      = if 0 < s.currentIndex then s.currentIndex - 1 else s.currentIndex := by
  unfold moveUp
  split
  · exact currentIndex_updates env _
  · rfl

lemma moveUp_viewLength (env : GitEnv) (s : CherryPicker) :
    viewLength (moveUp env s) = viewLength s := by
  unfold moveUp
  split
  · exact viewLength_updates env _
  · rfl

lemma moveDown_currentIndex (env : GitEnv) (s : CherryPicker) :
    (moveDown env s).currentIndex
      = if s.currentIndex < getMaxIndex s ∧ 0 ≤ getMaxIndex s
        then s.currentIndex + 1 else s.currentIndex := by
  unfold moveDown
  dsimp only
  split
  · exact currentIndex_updates env _
  · rfl

lemma moveDown_viewLength (env : GitEnv) (s : CherryPicker) :
    viewLength (moveDown env s) = viewLength s := by
  unfold moveDown
  dsimp only
  split
  · exact viewLength_updates env _
  · rfl

lemma pageUp_currentIndex (env : GitEnv) (s : CherryPicker) :
    (pageUp env s).currentIndex
      = if s.currentIndex - 25 < 0 then 0 else s.currentIndex - 25 := by
  unfold pageUp
  exact currentIndex_updates env _

lemma pageUp_viewLength (env : GitEnv) (s : CherryPicker) :
    viewLength (pageUp env s) = viewLength s := by
  unfold pageUp
  exact viewLength_updates env _

lemma pageDown_currentIndex (env : GitEnv) (s : CherryPicker) :
    (pageDown env s).currentIndex
      = if 0 ≤ getMaxIndex s
        then (if getMaxIndex s < s.currentIndex + 25
              then getMaxIndex s else s.currentIndex + 25)
        else s.currentIndex := by
  unfold pageDown
  dsimp only
  split
  · exact currentIndex_updates env _
  · rfl

lemma pageDown_viewLength (env : GitEnv) (s : CherryPicker) :
    viewLength (pageDown env s) = viewLength s := by
  unfold pageDown
  dsimp only
  split
  · exact viewLength_updates env _
  · rfl

lemma cursorInv_applyMove (env : GitEnv) (m : MoveOp) (s : CherryPicker)
    (h : cursorInv s) : cursorInv (applyMove env m s) := by
  obtain ⟨h1, h2⟩ := h
  have hmax := getMaxIndex_eq_viewLength s
  cases m with
  | up =>
    show cursorInv (moveUp env s)
    constructor
    · intro hv
      rw [moveUp_viewLength] at hv
      rw [moveUp_currentIndex, moveUp_viewLength]
      have := h1 hv
      split <;> omega
    · intro hv
      rw [moveUp_viewLength] at hv
      rw [moveUp_currentIndex]
      have := h2 hv
      split <;> omega
  | down =>
    show cursorInv (moveDown env s)
    constructor
    · intro hv
      rw [moveDown_viewLength] at hv
      rw [moveDown_currentIndex, moveDown_viewLength, hmax]
      have := h1 hv
      split <;> omega
    · intro hv
      rw [moveDown_viewLength] at hv
      rw [moveDown_currentIndex, hmax]
      have := h2 hv
      split <;> omega
  | pgUp =>
    show cursorInv (pageUp env s)
    constructor
    · intro hv
      rw [pageUp_viewLength] at hv
      rw [pageUp_currentIndex, pageUp_viewLength]
      have := h1 hv
      split <;> omega
    · intro hv
      rw [pageUp_viewLength] at hv
      rw [pageUp_currentIndex]
      have := h2 hv
      split <;> omega
  | pgDown =>
    show cursorInv (pageDown env s)
    constructor
    · intro hv
      rw [pageDown_viewLength] at hv
      rw [pageDown_currentIndex, pageDown_viewLength, hmax]
      have := h1 hv
      split
      · split <;> omega
      · omega
    · intro hv
      rw [pageDown_viewLength] at hv
      rw [pageDown_currentIndex, hmax]
      have := h2 hv
      split
      · split <;> omega
      · omega

/-- Claim C1: for every view (the filtered index list when search is active,
else the full commit sequence), any sequence of cursor-move operations (up,
down, page-up, page-down) keeps the cursor index inside [0, viewLength-1]
when the view is non-empty, and keeps it equal to 0 when the view is empty. -/
theorem cursor_moves_keep_cursor_in_view (env : GitEnv) (ms : List MoveOp)
    (s : CherryPicker) (h : cursorInv s) : cursorInv (applyMoves env ms s) := by
  induction ms generalizing s with
  | nil => exact h
  | cons m rest ih =>
    have hstep : applyMoves env (m :: rest) s
        = applyMoves env rest (applyMove env m s) := by
      unfold applyMoves
      simp [List.foldl_cons]
    rw [hstep]
    exact ih _ (cursorInv_applyMove env m s h)

/-- toggleSelect is the enter/space branch of tui.go Update (and the TAB
branch of handleSearchInput, which runs the same statements): flip the
selection of the cursor commit unless it is already applied. -/
def toggleSelect (s : CherryPicker) : CherryPicker :=
  match getCurrentCommit s with
  | some c =>
    if !c.AlreadyApplied then
      { s with selected := updateSel s.selected c.SHA (!s.selected c.SHA) }
    else s
  | none => s

/-- selectAllVisible is the a branch of tui.go Update: mark every visible
commit that is not already applied. -/
def selectAllVisible (s : CherryPicker) : CherryPicker :=
  let sel :=
    (getVisibleCommits s).foldl
      (fun sel c => if !c.AlreadyApplied then updateSel sel c.SHA true else sel)
      s.selected
  { s with selected := sel }

/-- clearAll is the c branch of tui.go Update: reset the selection map. -/
def clearAll (s : CherryPicker) : CherryPicker :=
  { s with selected := fun _ => false }

/-- selRangeBody is the body of the selectRange loop of models.go: select
commits[i] when the index is in bounds and the commit is not applied. -/
def selRangeBody (cs : List Commit) (sel : String → Bool) (i : Nat) : String → Bool :=
  match cs.get? i with
  | some c => if !c.AlreadyApplied then updateSel sel c.SHA true else sel
  | none => sel

/-- selectRange is models.go selectRange.  The Go loop runs i from start to
end, stopping as soon as i reaches the list length; since i only grows, the
stop is equivalent to skipping every out-of-range index, which is what the
bounds check inside selRangeBody does.  Range bounds are copies of the
cursor, hence non-negative in every reachable state; toNat is the identity
there. -/
def selectRange (s : CherryPicker) : CherryPicker :=
  let start := if s.rangeStart > s.rangeEnd then s.rangeEnd else s.rangeStart
  let stop := if s.rangeStart > s.rangeEnd then s.rangeStart else s.rangeEnd
  let sel :=
    (List.range' start.toNat (stop.toNat + 1 - start.toNat)).foldl
      (selRangeBody s.commits) s.selected
  { s with selected := sel }

/-- toggleRangeSelection is models.go toggleRangeSelection: open anchors the
range at the cursor, close commits the range to the selection set. -/
def toggleRangeSelection (s : CherryPicker) : CherryPicker :=
  if !s.rangeSelection then
    { s with rangeSelection := true, rangeStart := s.currentIndex,
             rangeEnd := s.currentIndex }
  else
    { selectRange s with rangeSelection := false }

/-- toggleCommitOrder is models.go toggleCommitOrder: reverse the backing
list, remap the cursor, remap and normalize open range bounds, flip the
order flag. -/
def toggleCommitOrder (s : CherryPicker) : CherryPicker :=
  let len : Int := s.commits.length
  let s1 := { s with commits := s.commits.reverse,
                     currentIndex := len - 1 - s.currentIndex }
  let s2 :=
    if s1.rangeSelection then
      let rs := len - 1 - s1.rangeStart
      let re := len - 1 - s1.rangeEnd
      if rs > re then { s1 with rangeStart := re, rangeEnd := rs }
      else { s1 with rangeStart := rs, rangeEnd := re }
    else s1
  { s2 with reverse := !s2.reverse }

/-- updateSearchResults is models.go updateSearchResults: recompute the
filtered index list (all indices on an empty query, else the indices whose
commit matches the lowered query) and reset the cursor to 0. -/
def updateSearchResults (s : CherryPicker) : CherryPicker :=
  let filtered :=
    if s.searchQuery = "" then List.range s.commits.length
    else
      let query := strToLower s.searchQuery
      s.commits.enum.filterMap
        (fun p => if commitMatchesSearch p.2 query then some p.1 else none)
  { s with filteredCommits := filtered, currentIndex := 0 }

/-- toggleSearchMode is models.go toggleSearchMode: enter resets the query
and recomputes results; exit drops query and filter and clamps the cursor. -/
def toggleSearchMode (s : CherryPicker) : CherryPicker :=
  if !s.searchMode then
    updateSearchResults { s with searchMode := true, searchQuery := "" }
  else
    let s1 := { s with searchMode := false, searchQuery := "",
                       filteredCommits := [] }
    let s2 := if (s1.commits.length : Int) ≤ s1.currentIndex
              then { s1 with currentIndex := (s1.commits.length : Int) - 1 }
              else s1
    if s2.currentIndex < 0 then { s2 with currentIndex := 0 } else s2

/-- searchChar is the printable-character branch of handleSearchInput:
append the character and recompute results. -/
def searchChar (ch : Char) (s : CherryPicker) : CherryPicker :=
  updateSearchResults { s with searchQuery := s.searchQuery.push ch }

/-- searchBackspace is the backspace branch of handleSearchInput. -/
def searchBackspace (s : CherryPicker) : CherryPicker :=
  if s.searchQuery.length > 0 then
    updateSearchResults { s with searchQuery := s.searchQuery.dropRight 1 }
  else s

/-- searchEnter is the enter branch of handleSearchInput: drop out of search
mode, keep the filtered index list in state unless it is empty. -/
def searchEnter (s : CherryPicker) : CherryPicker :=
  let s1 := { s with searchMode := false }
  if s1.filteredCommits.length = 0 then { s1 with filteredCommits := [] } else s1

/-- getSelectedSHAs is models.go getSelectedSHAs: walk the backing list in
order and collect the ids whose selection flag is set. -/
def getSelectedSHAs (s : CherryPicker) : List String :=
  s.commits.foldl
    (fun shas c => if s.selected c.SHA then shas ++ [c.SHA] else shas) []

/-- cherryPickTrace models the replay loop of git.go
cherryPickWithConflictHandling: the ids are attempted strictly in list
order, and the loop stops right after the first id whose pick fails. -/
def cherryPickTrace (env : GitEnv) : List String → List String
  | [] => []
  | sha :: rest =>
    if env.pickOk sha then sha :: cherryPickTrace env rest else [sha]

/-- continueConflictResolution is git.go continueConflictResolution.  The
first component records whether `git cherry-pick --continue` was actually
run (it is skipped when the conflict scan still reports conflicts). -/
def continueConflictResolution (env : GitEnv) : Bool × Except String Unit :=
  if env.hasConflicts then
    (false, .error "there are still unresolved conflicts")
  else
    (true, if env.continueRunOk then .ok () else .error "cherry-pick continue failed")

/-- loadConflictFiles is models.go loadConflictFiles: clear the list, then
fill it from the collaborator when the query succeeds. -/
def loadConflictFiles (env : GitEnv) (s : CherryPicker) : CherryPicker :=
  let files :=
    match env.getConflictedFiles with
    | some l => l
    | none => []
  { s with conflictFiles := files }

/-- exitConflictMode is models.go exitConflictMode. -/
def exitConflictMode (s : CherryPicker) : CherryPicker :=
  { s with conflictMode := false, conflictCommit := "", conflictFiles := [],
           conflictResolved := false }

/-- handleConflictContinue is the c (and identical 4) branch of tui.go
handleConflictInput: on error stay in conflict mode and refresh the file
list, on success leave conflict mode. -/
def handleConflictContinue (env : GitEnv) (s : CherryPicker) : CherryPicker :=
  match (continueConflictResolution env).2 with
  | .error _ => loadConflictFiles env s
  | .ok _ => exitConflictMode s

/-- exitBranchMode is models.go exitBranchMode. -/
def exitBranchMode (s : CherryPicker) : CherryPicker :=
  { s with branchMode := false, branchSwitchType := "",
           availableBranches := [], branchIndex := 0 }

/-- getUniqueCommits is git.go getUniqueCommits, with the git invocation
replaced by the collaborator result: append the fetched rows, reverse them
into chronological order unless the reverse flag is set, and put the cursor
at the top. -/
def getUniqueCommits (env : GitEnv) (s : CherryPicker) :
    CherryPicker × Option String :=
  match env.logCommits with
  | .error e => (s, some e)
  | .ok fetched =>
    let s1 := { s with commits := s.commits ++ fetched }
    let s2 := if !s1.reverse then { s1 with commits := s1.commits.reverse } else s1
    ({ s2 with currentIndex := 0 }, none)

/-- reloadCommits is models.go reloadCommits: clear selection, cursor,
search and preview state, then refetch (fetchOrigin returns nil on every
path in git.go, so it is a no-op here). -/
def reloadCommits (env : GitEnv) (s : CherryPicker) :
    CherryPicker × Option String :=
  let s1 := { s with commits := [], selected := fun _ => false,
                     currentIndex := 0, filteredCommits := [],
                     searchQuery := "", searchMode := false,
                     previewMode := false, previewCommit := none }
  getUniqueCommits env s1

/-- selectBranch is models.go selectBranch: reject an out-of-range cursor,
else overwrite the configured target or source branch, leave branch mode and
reload. -/
def selectBranch (env : GitEnv) (s : CherryPicker) :
    CherryPicker × Option String :=
  match s.availableBranches.get? s.branchIndex with
  | none => (s, some "invalid branch selection")
  | some selectedBranch =>
    let s1 :=
      if s.branchSwitchType = "target" then
        { s with config := { s.config with Git := { s.config.Git with TargetBranch := selectedBranch } } }
      else
        { s with config := { s.config with Git := { s.config.Git with SourceBranch := selectedBranch } } }
    reloadCommits env (exitBranchMode s1)

lemma selected_updates (env : GitEnv) (s : CherryPicker) :
    (updatePreview env (updateRangeEnd s)).selected = s.selected := by
  rw [updatePreview_selected, updateRangeEnd_selected]

lemma commits_updates (env : GitEnv) (s : CherryPicker) :
    (updatePreview env (updateRangeEnd s)).commits = s.commits := by
  rw [updatePreview_commits, updateRangeEnd_commits]

lemma applyMove_selected (env : GitEnv) (m : MoveOp) (s : CherryPicker) :
    (applyMove env m s).selected = s.selected := by
  cases m with
  | up =>
    show (moveUp env s).selected = s.selected
    unfold moveUp
    split
    · exact selected_updates env _
    · rfl
  | down =>
    show (moveDown env s).selected = s.selected
    unfold moveDown
    dsimp only
    split
    · exact selected_updates env _
    · rfl
  | pgUp =>
    show (pageUp env s).selected = s.selected
    unfold pageUp
    exact selected_updates env _
  | pgDown =>
    show (pageDown env s).selected = s.selected
    unfold pageDown
    dsimp only
    split
    · exact selected_updates env _
    · rfl

lemma applyMove_commits (env : GitEnv) (m : MoveOp) (s : CherryPicker) :
    (applyMove env m s).commits = s.commits := by
  cases m with
  | up =>
    show (moveUp env s).commits = s.commits
    unfold moveUp
    split
    · exact commits_updates env _
    · rfl
  | down =>
    show (moveDown env s).commits = s.commits
    unfold moveDown
    dsimp only
    split
    · exact commits_updates env _
    · rfl
  | pgUp =>
    show (pageUp env s).commits = s.commits
    unfold pageUp
    exact commits_updates env _
  | pgDown =>
    show (pageDown env s).commits = s.commits
    unfold pageDown
    dsimp only
    split
    · exact commits_updates env _
    · rfl

lemma getCurrentCommit_mem (s : CherryPicker) (c : Commit)
    (h : getCurrentCommit s = some c) : c ∈ s.commits := by
  unfold getCurrentCommit at h
  split at h
  · split at h
    · split at h
      · exact List.get?_mem h
      · exact absurd h (by simp)
    · exact absurd h (by simp)
  · split at h
    · exact List.get?_mem h
    · exact absurd h (by simp)

lemma mem_getVisibleCommits (s : CherryPicker) (c : Commit)
    (h : c ∈ getVisibleCommits s) : c ∈ s.commits := by
  unfold getVisibleCommits at h
  split at h
  · exact h
  · obtain ⟨i, _, hi⟩ := List.mem_filterMap.mp h
    exact List.get?_mem hi

lemma selRangeFold_spec (cs : List Commit) (n : Nat) :
    ∀ (i : Nat) (sel : String → Bool) (x : String),
      ((List.range' i n).foldl (selRangeBody cs) sel) x = true ↔
        sel x = true ∨ ∃ j c, i ≤ j ∧ j < i + n ∧ cs.get? j = some c ∧
          c.AlreadyApplied = false ∧ c.SHA = x := by
  induction n with
  | zero =>
    intro i sel x
    constructor
    · intro h
      exact Or.inl h
    · rintro (h | ⟨j, c, h1, h2, _⟩)
      · exact h
      · omega
  | succ n ih =>
    intro i sel x
    rw [List.range'_succ, List.foldl_cons, ih (i + 1) (selRangeBody cs sel i) x]
    have hbody : (selRangeBody cs sel i) x = true ↔
        sel x = true ∨ ∃ c, cs.get? i = some c ∧ c.AlreadyApplied = false ∧
          c.SHA = x := by
      unfold selRangeBody
      rcases hget : cs.get? i with _ | c
      · dsimp only
        constructor
        · intro h
          exact Or.inl h
        · rintro (h | ⟨c2, hc2, _, _⟩)
          · exact h
          · cases hc2
      · dsimp only
        by_cases hap : c.AlreadyApplied = true
        · rw [if_neg (by simp [hap])]
          constructor
          · intro h
            exact Or.inl h
          · rintro (h | ⟨c2, hc2, hap2, _⟩)
            · exact h
            · cases hc2
              rw [hap] at hap2
              exact absurd hap2 (by decide)
        · have hap2 : c.AlreadyApplied = false := by
            revert hap
            cases c.AlreadyApplied <;> simp
          rw [if_pos (by simp [hap2])]
          unfold updateSel
          by_cases hx : x = c.SHA
          · rw [if_pos hx]
            constructor
            · intro _
              exact Or.inr ⟨c, rfl, hap2, hx.symm⟩
            · intro _
              rfl
          · rw [if_neg hx]
            constructor
            · intro h
              exact Or.inl h
            · rintro (h | ⟨c2, hc2, _, hsha⟩)
              · exact h
              · cases hc2
                exact absurd hsha.symm hx
    rw [hbody]
    constructor
    · rintro ((h | ⟨c, hc, hap, hx⟩) | ⟨j, c, h1, h2, hc, hap, hx⟩)
      · exact Or.inl h
      · exact Or.inr ⟨i, c, Nat.le_refl i, by omega, hc, hap, hx⟩
      · exact Or.inr ⟨j, c, by omega, by omega, hc, hap, hx⟩
    · rintro (h | ⟨j, c, h1, h2, hc, hap, hx⟩)
      · exact Or.inl (Or.inl h)
      · rcases Nat.eq_or_lt_of_le h1 with he | hlt
        · subst he
          exact Or.inl (Or.inr ⟨c, hc, hap, hx⟩)
        · exact Or.inr ⟨j, c, by omega, by omega, hc, hap, hx⟩

lemma toggleCommitOrder_commits (s : CherryPicker) :
    (toggleCommitOrder s).commits = s.commits.reverse := by
  unfold toggleCommitOrder
  dsimp only
  split
  · split <;> rfl
  · rfl

lemma toggleCommitOrder_currentIndex (s : CherryPicker) :
    (toggleCommitOrder s).currentIndex
      = (s.commits.length : Int) - 1 - s.currentIndex := by
  unfold toggleCommitOrder
  dsimp only
  split
  · split <;> rfl
  · rfl

lemma toggleCommitOrder_selected (s : CherryPicker) :
    (toggleCommitOrder s).selected = s.selected := by
  unfold toggleCommitOrder
  dsimp only
  split
  · split <;> rfl
  · rfl

lemma toggleCommitOrder_reverse (s : CherryPicker) :
    (toggleCommitOrder s).reverse = !s.reverse := by
  unfold toggleCommitOrder
  dsimp only
  split
  · split <;> rfl
  · rfl

lemma toggleCommitOrder_rangeStart (s : CherryPicker) :
    (toggleCommitOrder s).rangeStart
      = if s.rangeSelection
        then min ((s.commits.length : Int) - 1 - s.rangeStart)
                 ((s.commits.length : Int) - 1 - s.rangeEnd)
        else s.rangeStart := by
  unfold toggleCommitOrder
  dsimp only
  split
  · split <;> (dsimp only; omega)
  · rfl

lemma toggleCommitOrder_rangeEnd (s : CherryPicker) :
    (toggleCommitOrder s).rangeEnd
      = if s.rangeSelection
        then max ((s.commits.length : Int) - 1 - s.rangeStart)
                 ((s.commits.length : Int) - 1 - s.rangeEnd)
        else s.rangeEnd := by
  unfold toggleCommitOrder
  dsimp only
  split
  · split <;> (dsimp only; omega)
  · rfl

lemma selectRange_selected_iff (s : CherryPicker)
    (h0 : 0 ≤ s.rangeStart) (h1 : 0 ≤ s.rangeEnd) (x : String) :
    (selectRange s).selected x = true ↔
      s.selected x = true ∨ ∃ (j : Nat) (c : Commit),
        min s.rangeStart s.rangeEnd ≤ (j : Int) ∧
        (j : Int) ≤ max s.rangeStart s.rangeEnd ∧
        s.commits.get? j = some c ∧ c.AlreadyApplied = false ∧ c.SHA = x := by
  unfold selectRange
  dsimp only
  rw [selRangeFold_spec]
  have hlo : (((if s.rangeStart > s.rangeEnd then s.rangeEnd else s.rangeStart).toNat : Int))
      = min s.rangeStart s.rangeEnd := by
    split <;> omega
  have hhi : (((if s.rangeStart > s.rangeEnd then s.rangeStart else s.rangeEnd).toNat : Int))
      = max s.rangeStart s.rangeEnd := by
    split <;> omega
  constructor
  · rintro (h | ⟨j, c, hj1, hj2, hc, hap, hx⟩)
    · exact Or.inl h
    · exact Or.inr ⟨j, c, by omega, by omega, hc, hap, hx⟩
  · rintro (h | ⟨j, c, hj1, hj2, hc, hap, hx⟩)
    · exact Or.inl h
    · exact Or.inr ⟨j, c, by omega, by omega, hc, hap, hx⟩

lemma toggleRangeSelection_close (s : CherryPicker) (hr : s.rangeSelection = true) :
    toggleRangeSelection s = { selectRange s with rangeSelection := false } := by
  unfold toggleRangeSelection
  rw [if_neg (by simp [hr])]

/-- Claim C3: closing an open range selection (which is only dispatched with
search inactive, so the view is the full backing sequence) marks as selected
exactly the previously selected commits plus every commit whose index lies
in [min(anchor,cursor), max(anchor,cursor)] and is not already applied; in
particular no commit is deselected.  Range bounds are cursor copies, hence
non-negative. -/
theorem range_close_selects_exact_interval (s : CherryPicker)
    (hr : s.rangeSelection = true) (hs : s.searchMode = false)
    (h0 : 0 ≤ s.rangeStart) (h1 : 0 ≤ s.rangeEnd) :
    getVisibleCommits s = s.commits ∧
    (toggleRangeSelection s).rangeSelection = false ∧
    (toggleRangeSelection s).commits = s.commits ∧
    (∀ x, s.selected x = true → (toggleRangeSelection s).selected x = true) ∧
    (∀ x, (toggleRangeSelection s).selected x = true ↔
      s.selected x = true ∨ ∃ (j : Nat) (c : Commit),
        min s.rangeStart s.rangeEnd ≤ (j : Int) ∧
        (j : Int) ≤ max s.rangeStart s.rangeEnd ∧
        s.commits.get? j = some c ∧ c.AlreadyApplied = false ∧ c.SHA = x) := by
  have hview : getVisibleCommits s = s.commits := by
    unfold getVisibleCommits
    rw [if_pos (by simp [hs])]
  rw [toggleRangeSelection_close s hr]
  have hiff := fun x => selectRange_selected_iff s h0 h1 x
  refine ⟨hview, rfl, rfl, ?_, hiff⟩
  intro x hx
  exact (hiff x).mpr (Or.inl hx)

/-- Claim C4: one toggle of the display order reverses the backing sequence,
re-derives the cursor as length - 1 - cursorIndex, remaps open range bounds
by the same formula and normalizes them so the start does not exceed the
end, and moves the commit at index i to index length - 1 - i. -/
theorem toggle_order_reverses_and_remaps (s : CherryPicker) :
    (toggleCommitOrder s).commits = s.commits.reverse ∧
    (toggleCommitOrder s).currentIndex
      = (s.commits.length : Int) - 1 - s.currentIndex ∧
    (toggleCommitOrder s).rangeStart
      = (if s.rangeSelection
         then min ((s.commits.length : Int) - 1 - s.rangeStart)
                  ((s.commits.length : Int) - 1 - s.rangeEnd)
         else s.rangeStart) ∧
    (toggleCommitOrder s).rangeEnd
      = (if s.rangeSelection
         then max ((s.commits.length : Int) - 1 - s.rangeStart)
                  ((s.commits.length : Int) - 1 - s.rangeEnd)
         else s.rangeEnd) ∧
    ((toggleCommitOrder s).rangeStart ≤ (toggleCommitOrder s).rangeEnd
      ∨ s.rangeSelection = false) ∧
    (∀ i : Nat, i < s.commits.length →
      (toggleCommitOrder s).commits.get? (s.commits.length - 1 - i)
        = s.commits.get? i) := by
  refine ⟨toggleCommitOrder_commits s, toggleCommitOrder_currentIndex s,
    toggleCommitOrder_rangeStart s, toggleCommitOrder_rangeEnd s, ?_, ?_⟩
  · by_cases hr : s.rangeSelection = true
    · left
      rw [toggleCommitOrder_rangeStart s, toggleCommitOrder_rangeEnd s,
        if_pos hr, if_pos hr]
      exact min_le_max
    · right
      revert hr
      cases s.rangeSelection <;> simp
  · intro i hi
    rw [toggleCommitOrder_commits s]
    have hj : s.commits.length - 1 - i < s.commits.length := by omega
    rw [List.get?_reverse hj]
    congr 1
    omega

/-- Claim C5: toggling the display order twice restores both the backing
commit sequence and the cursor index, for every state. -/
theorem toggle_order_twice_restores (s : CherryPicker) :
    (toggleCommitOrder (toggleCommitOrder s)).commits = s.commits ∧
    (toggleCommitOrder (toggleCommitOrder s)).currentIndex
      = s.currentIndex := by
  constructor
  · rw [toggleCommitOrder_commits, toggleCommitOrder_commits,
      List.reverse_reverse]
  · rw [toggleCommitOrder_currentIndex, toggleCommitOrder_currentIndex,
      toggleCommitOrder_commits, List.length_reverse]
    omega

/-- UiOp enumerates the dispatched input operations of tui.go that touch the
commit list, the selection set, the search state or the cursor. -/
inductive UiOp
  | mv (m : MoveOp)
  | toggleSel
  | selAll
  | range
  | clearSel
  | order
  | search
  | schar (c : Char)
  | sback
  | senter

/-- applyUiOp dispatches one input operation as tui.go Update and
handleSearchInput do. -/
def applyUiOp (env : GitEnv) : UiOp → CherryPicker → CherryPicker
  | .mv m, s => applyMove env m s
  | .toggleSel, s => toggleSelect s
  | .selAll, s => selectAllVisible s
  | .range, s => toggleRangeSelection s
  | .clearSel, s => clearAll s
  | .order, s => toggleCommitOrder s
  | .search, s => toggleSearchMode s
  | .schar c, s => searchChar c s
  | .sback, s => searchBackspace s
  | .senter, s => searchEnter s

/-- applyUiOps folds a whole input sequence. -/
def applyUiOps (env : GitEnv) (ops : List UiOp) (s : CherryPicker) : CherryPicker :=
  ops.foldl (fun t op => applyUiOp env op t) s

/-- selInv states the selection-set invariant: no already-applied commit of
the backing list is marked selected. -/
def selInv (s : CherryPicker) : Prop :=
  ∀ c ∈ s.commits, c.AlreadyApplied = true → s.selected c.SHA = false

/-- shaOK states the commit-id uniqueness consequence the data model
guarantees per load generation: an applied commit never shares its id with a
non-applied commit. -/
def shaOK (s : CherryPicker) : Prop :=
  ∀ c ∈ s.commits, ∀ d ∈ s.commits,
    c.AlreadyApplied = true → d.AlreadyApplied = false → c.SHA ≠ d.SHA

instance (s : CherryPicker) : Decidable (selInv s) := by
  unfold selInv; infer_instance

instance (s : CherryPicker) : Decidable (shaOK s) := by
  unfold shaOK; infer_instance

lemma updateSearchResults_selected (s : CherryPicker) :
    (updateSearchResults s).selected = s.selected := rfl

lemma updateSearchResults_commits (s : CherryPicker) :
    (updateSearchResults s).commits = s.commits := rfl

lemma toggleSearchMode_selected (s : CherryPicker) :
    (toggleSearchMode s).selected = s.selected := by
  unfold toggleSearchMode
  dsimp only
  split
  · rfl
  · split <;> split <;> rfl

lemma toggleSearchMode_commits (s : CherryPicker) :
    (toggleSearchMode s).commits = s.commits := by
  unfold toggleSearchMode
  dsimp only
  split
  · rfl
  · split <;> split <;> rfl

lemma searchBackspace_selected (s : CherryPicker) :
    (searchBackspace s).selected = s.selected := by
  unfold searchBackspace
  split <;> rfl

lemma searchBackspace_commits (s : CherryPicker) :
    (searchBackspace s).commits = s.commits := by
  unfold searchBackspace
  split <;> rfl

lemma searchEnter_selected (s : CherryPicker) :
    (searchEnter s).selected = s.selected := by
  unfold searchEnter
  dsimp only
  split <;> rfl

lemma searchEnter_commits (s : CherryPicker) :
    (searchEnter s).commits = s.commits := by
  unfold searchEnter
  dsimp only
  split <;> rfl

lemma toggleSelect_commits (s : CherryPicker) :
    (toggleSelect s).commits = s.commits := by
  unfold toggleSelect
  split
  · split <;> rfl
  · rfl

lemma toggleRangeSelection_commits (s : CherryPicker) :
    (toggleRangeSelection s).commits = s.commits := by
  unfold toggleRangeSelection
  split <;> rfl

lemma inv_transfer (s t : CherryPicker)
    (hsel : t.selected = s.selected) (hcom : t.commits = s.commits) :
    (shaOK s → shaOK t) ∧ (selInv s → selInv t) := by
  constructor
  · intro h c hc d hd
    rw [hcom] at hc hd
    exact h c hc d hd
  · intro h c hc
    rw [hcom] at hc
    rw [hsel]
    exact h c hc

lemma selInv_toggleSelect (s : CherryPicker) (hOK : shaOK s) (h : selInv s) :
    selInv (toggleSelect s) := by
  unfold toggleSelect
  split
  · next c hc =>
    split
    · next hap =>
      intro d hd hda
      replace hd : d ∈ s.commits := hd
      show updateSel s.selected c.SHA (!s.selected c.SHA) d.SHA = false
      unfold updateSel
      split
      · next heq =>
        have hcmem := getCurrentCommit_mem s c hc
        have hcfalse : c.AlreadyApplied = false := by
          revert hap
          cases c.AlreadyApplied <;> simp
        exact absurd heq (hOK d hd c hcmem hda hcfalse)
      · exact h d hd hda
    · exact h
  · exact h

lemma foldSelect_false (l : List Commit) :
    ∀ (sel : String → Bool) (d : Commit),
      (∀ v ∈ l, v.AlreadyApplied = false → d.SHA ≠ v.SHA) →
      sel d.SHA = false →
      (l.foldl
        (fun sel c => if !c.AlreadyApplied then updateSel sel c.SHA true else sel)
        sel) d.SHA = false := by
  induction l with
  | nil =>
    intro sel d _ hbase
    exact hbase
  | cons v t ih =>
    intro sel d hne hbase
    rw [List.foldl_cons]
    apply ih
    · intro w hw hwa
      exact hne w (List.mem_cons_of_mem v hw) hwa
    · by_cases hva : v.AlreadyApplied = true
      · rw [if_neg (by simp [hva])]
        exact hbase
      · have hva2 : v.AlreadyApplied = false := by
          revert hva
          cases v.AlreadyApplied <;> simp
        rw [if_pos (by simp [hva2])]
        unfold updateSel
        rw [if_neg (hne v (List.mem_cons_self v t) hva2)]
        exact hbase

lemma selInv_selectAllVisible (s : CherryPicker) (hOK : shaOK s) (h : selInv s) :
    selInv (selectAllVisible s) := by
  intro d hd hda
  replace hd : d ∈ s.commits := hd
  show ((getVisibleCommits s).foldl
      (fun sel c => if !c.AlreadyApplied then updateSel sel c.SHA true else sel)
      s.selected) d.SHA = false
  apply foldSelect_false
  · intro v hv hva
    exact hOK d hd v (mem_getVisibleCommits s v hv) hda hva
  · exact h d hd hda

lemma selInv_toggleRangeSelection (s : CherryPicker) (hOK : shaOK s)
    (h : selInv s) : selInv (toggleRangeSelection s) := by
  unfold toggleRangeSelection
  split
  · exact h
  · intro d hd hda
    replace hd : d ∈ s.commits := hd
    show (selectRange s).selected d.SHA = false
    cases hres : (selectRange s).selected d.SHA with
    | false => rfl
    | true =>
      have hspec : ((List.range'
          (if s.rangeStart > s.rangeEnd then s.rangeEnd else s.rangeStart).toNat
          ((if s.rangeStart > s.rangeEnd then s.rangeStart else s.rangeEnd).toNat + 1
            - (if s.rangeStart > s.rangeEnd then s.rangeEnd else s.rangeStart).toNat)).foldl
          (selRangeBody s.commits) s.selected) d.SHA = true := hres
      rw [selRangeFold_spec] at hspec
      rcases hspec with hsel | ⟨j, c, _, _, hc, hap, hx⟩
      · rw [h d hd hda] at hsel
        exact absurd hsel (by decide)
      · have hcm : c ∈ s.commits := List.get?_mem hc
        exact absurd hx.symm (hOK d hd c hcm hda hap)

lemma step_preserves_inv (env : GitEnv) (op : UiOp) (s : CherryPicker)
    (hOK : shaOK s) (h : selInv s) :
    shaOK (applyUiOp env op s) ∧ selInv (applyUiOp env op s) := by
  cases op with
  | mv m =>
    have := inv_transfer s (applyMove env m s)
      (applyMove_selected env m s) (applyMove_commits env m s)
    exact ⟨this.1 hOK, this.2 h⟩
  | toggleSel =>
    dsimp only [applyUiOp]
    constructor
    · intro c hc d hd
      rw [toggleSelect_commits] at hc hd
      exact hOK c hc d hd
    · exact selInv_toggleSelect s hOK h
  | selAll =>
    constructor
    · intro c hc d hd
      replace hc : c ∈ s.commits := hc
      replace hd : d ∈ s.commits := hd
      exact hOK c hc d hd
    · exact selInv_selectAllVisible s hOK h
  | range =>
    dsimp only [applyUiOp]
    constructor
    · intro c hc d hd
      rw [toggleRangeSelection_commits] at hc hd
      exact hOK c hc d hd
    · exact selInv_toggleRangeSelection s hOK h
  | clearSel =>
    constructor
    · intro c hc d hd
      replace hc : c ∈ s.commits := hc
      replace hd : d ∈ s.commits := hd
      exact hOK c hc d hd
    · intro c _ _
      rfl
  | order =>
    dsimp only [applyUiOp]
    constructor
    · intro c hc d hd
      rw [toggleCommitOrder_commits, List.mem_reverse] at hc hd
      exact hOK c hc d hd
    · intro c hc
      rw [toggleCommitOrder_commits, List.mem_reverse] at hc
      rw [toggleCommitOrder_selected]
      exact h c hc
  | search =>
    have := inv_transfer s (toggleSearchMode s)
      (toggleSearchMode_selected s) (toggleSearchMode_commits s)
    exact ⟨this.1 hOK, this.2 h⟩
  | schar c =>
    have := inv_transfer s (searchChar c s) rfl rfl
    exact ⟨this.1 hOK, this.2 h⟩
  | sback =>
    have := inv_transfer s (searchBackspace s)
      (searchBackspace_selected s) (searchBackspace_commits s)
    exact ⟨this.1 hOK, this.2 h⟩
  | senter =>
    have := inv_transfer s (searchEnter s)
      (searchEnter_selected s) (searchEnter_commits s)
    exact ⟨this.1 hOK, this.2 h⟩

/-- Claim C2: starting from a state whose selection set respects the
invariant (for instance the empty selection after a load) and whose commit
ids separate applied from non-applied commits (ids are unique per load
generation), no sequence of input operations - cursor moves, toggle at the
cursor, select-all-visible, range open/close, clear, order toggle, or any
search-mode operation - ever marks an already-applied commit as selected. -/
theorem applied_commits_never_selected (env : GitEnv) (ops : List UiOp)
    (s : CherryPicker) (hOK : shaOK s) (h : selInv s) :
    selInv (applyUiOps env ops s) := by
  induction ops generalizing s with
  | nil => exact h
  | cons op rest ih =>
    have hstep : applyUiOps env (op :: rest) s
        = applyUiOps env rest (applyUiOp env op s) := by
      unfold applyUiOps
      simp [List.foldl_cons]
    rw [hstep]
    obtain ⟨hOK2, h2⟩ := step_preserves_inv env op s hOK h
    exact ih _ hOK2 h2

lemma listHasSub_nil (l : List Char) : listHasSub l [] = true := by
  cases l <;> rfl

lemma strContains_empty (s : String) : strContains s "" = true := by
  unfold strContains
  exact listHasSub_nil s.data

lemma commitMatchesSearch_empty (c : Commit) :
    commitMatchesSearch c "" = true := by
  unfold commitMatchesSearch
  rw [strContains_empty]
  rfl

/-- Claim C7: a search query that matches no commit on any searched field
yields an empty filtered index list and a cursor index of 0. -/
theorem no_match_yields_empty_view (s : CherryPicker)
    (hnm : ∀ c ∈ s.commits,
      commitMatchesSearch c (strToLower s.searchQuery) = false) :
    (updateSearchResults s).filteredCommits = [] ∧
    (updateSearchResults s).currentIndex = 0 := by
  constructor
  · show (if s.searchQuery = "" then List.range s.commits.length
      else s.commits.enum.filterMap
        (fun p => if commitMatchesSearch p.2 (strToLower s.searchQuery)
                  then some p.1 else none)) = []
    split
    · next hq =>
      cases hcs : s.commits with
      | nil => simp [hcs]
      | cons c t =>
        have hm := hnm c (by rw [hcs]; exact List.mem_cons_self c t)
        rw [hq] at hm
        have he : strToLower "" = "" := by decide
        rw [he, commitMatchesSearch_empty c] at hm
        exact absurd hm (by decide)
    · rw [List.filterMap_eq_nil]
      rintro ⟨i, c⟩ hp
      rw [List.enum_eq_zip_range] at hp
      have hmem := (List.of_mem_zip hp).2
      simp only [hnm c hmem]
      rfl
  · rfl

lemma getSelectedSHAs_foldl (sel : String → Bool) (l : List Commit) :
    ∀ acc : List String,
      l.foldl (fun shas c => if sel c.SHA then shas ++ [c.SHA] else shas) acc
        = acc ++ (l.filter (fun c => sel c.SHA)).map Commit.SHA := by
  induction l with
  | nil =>
    intro acc
    simp
  | cons c t ih =>
    intro acc
    rw [List.foldl_cons]
    by_cases hc : sel c.SHA = true
    · rw [if_pos hc, ih]
      simp [List.filter_cons, hc]
    · rw [if_neg hc, ih]
      simp [List.filter_cons, hc]

lemma getSelectedSHAs_eq (s : CherryPicker) :
    getSelectedSHAs s
      = (s.commits.filter (fun c => s.selected c.SHA)).map Commit.SHA := by
  unfold getSelectedSHAs
  rw [getSelectedSHAs_foldl]
  rfl

lemma cherryPickTrace_all_ok (env : GitEnv)
    (hok : ∀ sha, env.pickOk sha = true) :
    ∀ l : List String, cherryPickTrace env l = l := by
  intro l
  induction l with
  | nil => rfl
  | cons sha rest ih =>
    unfold cherryPickTrace
    rw [if_pos (hok sha), ih]

/-- Claim C10: the list of selected ids handed to the replay loop is the
backing sequence filtered in order (independent of when each id was
selected); toggling the display order therefore reverses it, and since the
replay loop attempts ids strictly in list order (here with every pick
succeeding), the selected commits are replayed in the reversed order. -/
theorem selected_shas_follow_backing_order (env : GitEnv) (s : CherryPicker)
    (hok : ∀ sha, env.pickOk sha = true) :
    getSelectedSHAs s
      = (s.commits.filter (fun c => s.selected c.SHA)).map Commit.SHA ∧
    getSelectedSHAs (toggleCommitOrder s) = (getSelectedSHAs s).reverse ∧
    cherryPickTrace env (getSelectedSHAs (toggleCommitOrder s))
      = (getSelectedSHAs s).reverse := by
  have hrev : getSelectedSHAs (toggleCommitOrder s)
      = (getSelectedSHAs s).reverse := by
    rw [getSelectedSHAs_eq, getSelectedSHAs_eq, toggleCommitOrder_commits,
      toggleCommitOrder_selected, List.filter_reverse, List.map_reverse]
  exact ⟨getSelectedSHAs_eq s, hrev, by rw [cherryPickTrace_all_ok env hok, hrev]⟩

/-- Claim C8: with a conflict session open, requesting continue while the
collaborator still reports conflicts leaves the session open, skips the
resume command, and re-loads the conflicted-file list; when the collaborator
reports zero remaining conflicts (and the resume command itself succeeds)
the resume command is issued and the session terminates. -/
theorem conflict_continue_stays_open_or_resumes (env : GitEnv)
    (s : CherryPicker) (hm : s.conflictMode = true) :
    (env.hasConflicts = true →
      (handleConflictContinue env s).conflictMode = true ∧
      (handleConflictContinue env s).conflictFiles
        = (match env.getConflictedFiles with
           | some l => l
           | none => []) ∧
      (continueConflictResolution env).1 = false) ∧
    (env.hasConflicts = false → env.continueRunOk = true →
      (continueConflictResolution env).1 = true ∧
      (handleConflictContinue env s).conflictMode = false) := by
  constructor
  · intro hcf
    unfold handleConflictContinue continueConflictResolution
    rw [hcf]
    exact ⟨hm, rfl, rfl⟩
  · intro hcf hok
    unfold handleConflictContinue continueConflictResolution
    rw [hcf, hok]
    exact ⟨rfl, rfl⟩

/-- Claim C9: confirming a valid branch choice overwrites the configured
target branch (when switching the target) or source branch (otherwise),
and the triggered reload clears the selection set, the search state (mode,
query, filtered indices), the preview state, the branch session, and resets
the cursor index to 0 - whether or not the refetch succeeds. -/
theorem branch_confirm_overwrites_and_resets (env : GitEnv)
    (s : CherryPicker) (b : String)
    (hb : s.availableBranches.get? s.branchIndex = some b) :
    (s.branchSwitchType = "target" →
      (selectBranch env s).1.config.Git.TargetBranch = b ∧
      (selectBranch env s).1.config.Git.SourceBranch
        = s.config.Git.SourceBranch) ∧
    (s.branchSwitchType ≠ "target" →
      (selectBranch env s).1.config.Git.SourceBranch = b ∧
      (selectBranch env s).1.config.Git.TargetBranch
        = s.config.Git.TargetBranch) ∧
    (∀ sha, (selectBranch env s).1.selected sha = false) ∧
    (selectBranch env s).1.searchMode = false ∧
    (selectBranch env s).1.searchQuery = "" ∧
    (selectBranch env s).1.filteredCommits = [] ∧
    (selectBranch env s).1.previewMode = false ∧
    (selectBranch env s).1.previewCommit = none ∧
    (selectBranch env s).1.currentIndex = 0 ∧
    (selectBranch env s).1.branchMode = false := by
  unfold selectBranch
  rw [hb]
  dsimp only
  unfold reloadCommits getUniqueCommits exitBranchMode
  by_cases ht : s.branchSwitchType = "target"
  · rw [if_pos ht]
    rcases hlog : env.logCommits with e | fetched <;> dsimp only <;>
      refine ⟨fun _ => ⟨?_, ?_⟩, fun hne => absurd ht hne, fun sha => ?_,
        ?_, ?_, ?_, ?_, ?_, ?_, ?_⟩ <;>
      first
        | rfl
        | (split <;> rfl)
  · rw [if_neg ht]
    rcases hlog : env.logCommits with e | fetched <;> dsimp only <;>
      refine ⟨fun hyes => absurd hyes ht, fun _ => ⟨?_, ?_⟩, fun sha => ?_,
        ?_, ?_, ?_, ?_, ?_, ?_, ?_⟩ <;>
      first
        | rfl
        | (split <;> rfl)

/-- baseCP is a default application state used by the concrete test states
below: empty load, nothing selected, every mode off. -/
def baseCP : CherryPicker :=
  { commits := [], selected := fun _ => false, currentIndex := 0,
    quitting := false, reverse := false,
    config := { Git := { TargetBranch := "main", SourceBranch := "develop" } },
    rangeSelection := false, rangeStart := 0, rangeEnd := 0,
    conflictMode := false, conflictCommit := "", conflictFiles := [],
    conflictResolved := false, searchMode := false, searchQuery := "",
    filteredCommits := [], previewMode := false, previewCommit := none,
    previewDiff := "", previewStats := "", branchMode := false,
    branchSwitchType := "", availableBranches := [], branchIndex := 0 }

/-- mkCommit builds a plain non-merge commit row for the concrete states. -/
def mkCommit (sha msg : String) (applied : Bool) : Commit :=
  { SHA := sha, Message := msg, Full := sha ++ " " ++ msg, Author := "alice",
    IsMerge := false, ParentCount := 1, FilesChanged := [], Insertions := 0,
    Deletions := 0, AlreadyApplied := applied }

/-- baseEnv is a collaborator in which every external call succeeds
trivially. -/
def baseEnv : GitEnv :=
  { getCommitDiff := fun _ => .ok "", getCommitStats := fun _ => .ok "",
    hasConflicts := false, continueRunOk := true,
    getConflictedFiles := some [], pickOk := fun _ => true,
    logCommits := .ok [] }

/-- searchKeptState is a state in the middle of a search: two commits, query
"fix" matching only the second, so the filtered index list is [1] (the value
updateSearchResults computes, re-checked in the theorem below). -/
def searchKeptState : CherryPicker :=
  { baseCP with
    commits := [mkCommit "aaa" "alpha work" false, mkCommit "bbb" "fix bug" false],
    searchMode := true, searchQuery := "fix", filteredCommits := [1] }

/-- Claim C6, evaluated at a failing input.  The cancel exit (Esc, via
toggleSearchMode) behaves as specified: filter and query discarded, full
view restored, cursor in range.  The confirm exit (Enter, via searchEnter)
keeps the filtered index list and the query in state, but because it clears
searchMode, getVisibleCommits and getMaxIndex fall back to the full commit
list: the kept filter has no effect on the displayed view, contradicting the
claim (and the source comment "keep current filter"). -/
theorem search_confirm_exit_loses_filter :
    (updateSearchResults searchKeptState).filteredCommits = [1] ∧
    getVisibleCommits searchKeptState = [mkCommit "bbb" "fix bug" false] ∧
    (searchEnter searchKeptState).searchMode = false ∧
    (searchEnter searchKeptState).filteredCommits = [1] ∧
    (searchEnter searchKeptState).searchQuery = "fix" ∧
    getVisibleCommits (searchEnter searchKeptState) = searchKeptState.commits ∧
    getVisibleCommits (searchEnter searchKeptState)
      ≠ [mkCommit "bbb" "fix bug" false] ∧
    getMaxIndex (searchEnter searchKeptState) = 1 ∧
    (toggleSearchMode searchKeptState).searchMode = false ∧
    (toggleSearchMode searchKeptState).filteredCommits = [] ∧
    (toggleSearchMode searchKeptState).searchQuery = "" ∧
    getVisibleCommits (toggleSearchMode searchKeptState)
      = searchKeptState.commits ∧
    0 ≤ (toggleSearchMode searchKeptState).currentIndex ∧
    (toggleSearchMode searchKeptState).currentIndex
      < (searchKeptState.commits.length : Int) := by
  decide

/-- navDemoState is a three-commit browsing state for the cursor witness. -/
def navDemoState : CherryPicker :=
  { baseCP with
    commits := [mkCommit "aaa" "alpha work" false,
                mkCommit "bbb" "beta work" false,
                mkCommit "ccc" "gamma work" false] }

/-- Witness for claim C1 at a concrete state and key sequence. -/
theorem cursor_moves_keep_cursor_in_view_witness :
    cursorInv (applyMoves baseEnv
      [MoveOp.down, MoveOp.down, MoveOp.pgDown, MoveOp.up, MoveOp.pgUp]
      navDemoState) :=
  cursor_moves_keep_cursor_in_view baseEnv
    [MoveOp.down, MoveOp.down, MoveOp.pgDown, MoveOp.up, MoveOp.pgUp]
    navDemoState (by decide)

/-- selDemoState mixes an applied commit between two selectable ones. -/
def selDemoState : CherryPicker :=
  { baseCP with
    commits := [mkCommit "aaa" "alpha work" false,
                mkCommit "bbb" "beta work" true,
                mkCommit "ccc" "fix typo" false] }

/-- Witness for claim C2: a run of toggling, select-all, a range cycle, an
order flip and a search round never selects the applied commit. -/
theorem applied_commits_never_selected_witness :
    selInv (applyUiOps baseEnv
      [UiOp.mv MoveOp.down, UiOp.toggleSel, UiOp.selAll, UiOp.range,
       UiOp.mv MoveOp.down, UiOp.range, UiOp.order, UiOp.search,
       UiOp.schar 'f', UiOp.senter, UiOp.toggleSel]
      selDemoState) :=
  applied_commits_never_selected baseEnv
    [UiOp.mv MoveOp.down, UiOp.toggleSel, UiOp.selAll, UiOp.range,
     UiOp.mv MoveOp.down, UiOp.range, UiOp.order, UiOp.search,
     UiOp.schar 'f', UiOp.senter, UiOp.toggleSel]
    selDemoState (by decide) (by decide)

/-- rangeDemoState has a range opened at index 0 and grown to index 2 over
three non-applied commits. -/
def rangeDemoState : CherryPicker :=
  { baseCP with
    commits := [mkCommit "aaa" "alpha work" false,
                mkCommit "bbb" "beta work" false,
                mkCommit "ccc" "gamma work" false],
    currentIndex := 2, rangeSelection := true, rangeStart := 0, rangeEnd := 2 }

/-- Witness for claim C3: closing the 0..2 range selects exactly the three
commits and nothing else. -/
theorem range_close_selects_exact_interval_witness :
    (toggleRangeSelection rangeDemoState).rangeSelection = false ∧
    (toggleRangeSelection rangeDemoState).selected "aaa" = true ∧
    (toggleRangeSelection rangeDemoState).selected "bbb" = true ∧
    (toggleRangeSelection rangeDemoState).selected "ccc" = true ∧
    (toggleRangeSelection rangeDemoState).selected "zzz" = false := by
  have h := range_close_selects_exact_interval rangeDemoState rfl rfl
    (by decide) (by decide)
  refine ⟨h.2.1, ?_, ?_, ?_, by decide⟩
  · exact (h.2.2.2.2 "aaa").mpr
      (Or.inr ⟨0, mkCommit "aaa" "alpha work" false,
        by decide, by decide, rfl, rfl, rfl⟩)
  · exact (h.2.2.2.2 "bbb").mpr
      (Or.inr ⟨1, mkCommit "bbb" "beta work" false,
        by decide, by decide, rfl, rfl, rfl⟩)
  · exact (h.2.2.2.2 "ccc").mpr
      (Or.inr ⟨2, mkCommit "ccc" "gamma work" false,
        by decide, by decide, rfl, rfl, rfl⟩)

/-- orderDemoState is a four-commit state with the cursor on index 1. -/
def orderDemoState : CherryPicker :=
  { baseCP with
    commits := [mkCommit "aaa" "alpha work" false,
                mkCommit "bbb" "beta work" false,
                mkCommit "ccc" "gamma work" false,
                mkCommit "ddd" "delta work" false],
    currentIndex := 1 }

/-- Witness for claim C4: on four commits with cursor 1 the toggle moves the
cursor to 2 and the commit formerly at index 1 to index 2. -/
theorem toggle_order_reverses_and_remaps_witness :
    (toggleCommitOrder orderDemoState).currentIndex = 2 ∧
    (toggleCommitOrder orderDemoState).commits.get? 2
      = orderDemoState.commits.get? 1 := by
  have h := toggle_order_reverses_and_remaps orderDemoState
  constructor
  · rw [h.2.1]
    decide
  · exact h.2.2.2.2.2 1 (by decide)

/-- noMatchState is a search state whose query matches no commit. -/
def noMatchState : CherryPicker :=
  { baseCP with
    commits := [mkCommit "aaa" "alpha work" false, mkCommit "bbb" "fix bug" false],
    searchMode := true, searchQuery := "zzz" }

/-- Witness for claim C7 at a query matching nothing. -/
theorem no_match_yields_empty_view_witness :
    (updateSearchResults noMatchState).filteredCommits = [] ∧
    (updateSearchResults noMatchState).currentIndex = 0 :=
  no_match_yields_empty_view noMatchState (by decide)

/-- conflictState is an open conflict session for commit aaa. -/
def conflictState : CherryPicker :=
  { baseCP with conflictMode := true, conflictCommit := "aaa" }

/-- cfDemo is one conflicted file still carrying marker text. -/
def cfDemo : ConflictFile :=
  { Path := "main.go", Status := "UU",
    Description := "Both modified (merge conflict)", HasConflicts := true }

/-- envConflicted is a collaborator still reporting a conflict. -/
def envConflicted : GitEnv :=
  { baseEnv with hasConflicts := true, getConflictedFiles := some [cfDemo] }

/-- Witness for claim C8 under a still-conflicted and a clean collaborator. -/
theorem conflict_continue_stays_open_or_resumes_witness :
    ((handleConflictContinue envConflicted conflictState).conflictMode = true ∧
     (handleConflictContinue envConflicted conflictState).conflictFiles = [cfDemo] ∧
     (continueConflictResolution envConflicted).1 = false) ∧
    ((continueConflictResolution baseEnv).1 = true ∧
     (handleConflictContinue baseEnv conflictState).conflictMode = false) := by
  have h1 := (conflict_continue_stays_open_or_resumes envConflicted
    conflictState rfl).1 rfl
  have h2 := (conflict_continue_stays_open_or_resumes baseEnv
    conflictState rfl).2 rfl rfl
  exact ⟨⟨h1.1, h1.2.1, h1.2.2⟩, h2⟩

/-- branchDemoState is a branch-switch session targeting index 1, with stale
search and preview state that the reload must clear. -/
def branchDemoState : CherryPicker :=
  { baseCP with
    commits := [mkCommit "aaa" "alpha work" false],
    selected := fun sha => sha == "aaa",
    currentIndex := 0,
    branchMode := true, branchSwitchType := "target",
    availableBranches := ["dev", "release"], branchIndex := 1,
    searchMode := true, searchQuery := "x", filteredCommits := [0],
    previewMode := true, previewCommit := some (mkCommit "aaa" "alpha work" false) }

/-- envReload is a collaborator whose refetch returns one fresh commit. -/
def envReload : GitEnv :=
  { baseEnv with logCommits := .ok [mkCommit "ddd" "delta work" false] }

/-- Witness for claim C9 at a concrete branch confirmation. -/
theorem branch_confirm_overwrites_and_resets_witness :
    (selectBranch envReload branchDemoState).1.config.Git.TargetBranch
      = "release" ∧
    (∀ sha, (selectBranch envReload branchDemoState).1.selected sha = false) ∧
    (selectBranch envReload branchDemoState).1.searchMode = false ∧
    (selectBranch envReload branchDemoState).1.searchQuery = "" ∧
    (selectBranch envReload branchDemoState).1.filteredCommits = [] ∧
    (selectBranch envReload branchDemoState).1.previewMode = false ∧
    (selectBranch envReload branchDemoState).1.previewCommit = none ∧
    (selectBranch envReload branchDemoState).1.currentIndex = 0 ∧
    (selectBranch envReload branchDemoState).1.branchMode = false := by
  have h := branch_confirm_overwrites_and_resets envReload branchDemoState
    "release" (by decide)
  exact ⟨(h.1 rfl).1, h.2.2.1, h.2.2.2.1, h.2.2.2.2.1, h.2.2.2.2.2.1,
    h.2.2.2.2.2.2.1, h.2.2.2.2.2.2.2.1, h.2.2.2.2.2.2.2.2.1,
    h.2.2.2.2.2.2.2.2.2⟩

/-- pickDemoState has the first and third commit selected. -/
def pickDemoState : CherryPicker :=
  { baseCP with
    commits := [mkCommit "aaa" "alpha work" false,
                mkCommit "bbb" "beta work" false,
                mkCommit "ccc" "gamma work" false],
    selected := fun sha => sha == "aaa" || sha == "ccc" }

/-- Witness for claim C10: the handed-over ids follow backing order, and an
order toggle reverses the replay order. -/
theorem selected_shas_follow_backing_order_witness :
    getSelectedSHAs pickDemoState = ["aaa", "ccc"] ∧
    getSelectedSHAs (toggleCommitOrder pickDemoState) = ["ccc", "aaa"] ∧
    cherryPickTrace baseEnv (getSelectedSHAs (toggleCommitOrder pickDemoState))
      = ["ccc", "aaa"] := by
  have h := selected_shas_follow_backing_order baseEnv pickDemoState
    (fun _ => rfl)
  refine ⟨by decide, ?_, ?_⟩
  · rw [h.2.1]
    decide
  · rw [h.2.2]
    decide
